import Mathlib

/-!
Shallow embedding of the Go-Vue employee CRUD backend.

The repository ships two Go server variants with near-identical store logic:
`src/goBack/main.go` (plain net/http, with an in-process id allocator) and an
unnamed Gin variant (`src/unnamed/part_000`, no allocator, `emp_id` required).
The three MongoDB collections (Employee, Department, Developers) are modelled
as lists of rows kept in insertion order; `InsertOne` appends, `UpdateOne`
rewrites the first matching row, `DeleteOne` removes the first matching row,
`DeleteMany` removes every matching row, `FindOne` with a descending sort on
`emp_id` returns a row with the maximal `emp_id`, and the `$lookup` /
`$arrayElemAt 0` aggregation takes the first matching row of the foreign
collection.  Fallibility of each store call is modelled by an oracle
(`StoreFaults`) giving, per collection, the error message of the first
failing operation on it (`none` = the operation succeeds).
-/

/-- A row of the `Employee` collection: `{emp_id, emp_name}`. -/
structure EmployeeRow where
  emp_id : Int
  emp_name : String
deriving DecidableEq, Repr

/-- A row of the `Department` collection: `{emp_id, department_name}`. -/
structure DepartmentRow where
  emp_id : Int
  department_name : String
deriving DecidableEq, Repr

/-- A row of the `Developers` collection: `{emp_id, language}`. -/
structure DeveloperRow where
  emp_id : Int
  language : String
deriving DecidableEq, Repr

/-- The three collections of the document store. -/
structure Store where
  employee : List EmployeeRow
  department : List DepartmentRow
  developers : List DeveloperRow
deriving DecidableEq, Repr

/-- One entry of the aggregation output (`EmployeeDetails` in both variants);
`none` models an absent/null joined field. -/
structure EmployeeDetails where
  emp_id : Int
  emp_name : String
  department : Option String
  language : Option String
deriving DecidableEq, Repr

/-- An HTTP response, reduced to the fields the handlers actually emit:
status code plus the optional JSON body fields `message`, `emp_id`,
`deleted_count`, `error`. -/
structure Response where
  status : Nat
  message : Option String := none
  emp_id : Option Int := none
  deleted_count : Option Nat := none
  error : Option String := none
deriving DecidableEq, Repr

/-- Per-collection failure oracle: `some m` means the single store operation
issued against that collection during the handler fails with error text `m`;
`none` means it succeeds. -/
structure StoreFaults where
  employee : Option String := none
  department : Option String := none
  developers : Option String := none
deriving DecidableEq, Repr

/-- The all-successful oracle. -/
def noFaults : StoreFaults := {}

/-! ## Identity Allocator (src/goBack/main.go, nextID / initIDCounter) -/

/-- Function `nextID` returns the current counter value and the incremented counter
(the Go function mutates the global `idCounter` under a mutex; here the
counter is threaded explicitly). -/
def nextID (c : Int) : Int × Int := (c, c + 1)

/-- Running maximum of `emp_id` over a list of Employee rows, seeded with
`acc`; models `FindOne` with sort `{emp_id: -1}` picking the largest id. -/
def maxIdAux (acc : Int) : List EmployeeRow → Int
  | [] => acc
  | r :: rs => maxIdAux (max acc r.emp_id) rs

/-- The `lastIDHandler` / `getLastEmpID` store read: the largest `emp_id` of the
Employee collection, or `0` when it is empty (`mongo.ErrNoDocuments`). -/
def getLastEmpID (s : Store) : Int :=
  match s.employee with
  | [] => 0
  | e :: es => maxIdAux e.emp_id es

/-- Function `initIDCounter` gives the counter value set at process start — the largest
existing `emp_id` plus one, or `1` when the Employee collection is empty. -/
def initIDCounter (s : Store) : Int :=
  match s.employee with
  | [] => 1
  | e :: es => maxIdAux e.emp_id es + 1

/-! ## Aggregation Reader (getEmployees, identical pipeline in both variants) -/

/-- Function `getEmployees`: for each Employee row, `$lookup` gathers the matching
Department (resp. Developers) rows in collection order and `$arrayElemAt 0`
projects the first one's `department_name` (resp. `language`), absent when no
row matches. -/
def getEmployees (s : Store) : List EmployeeDetails :=
  s.employee.map (fun e =>
    { emp_id := e.emp_id
      emp_name := e.emp_name
      department :=
        ((s.department.filter (fun d => d.emp_id == e.emp_id)).head?).map
          (fun d => d.department_name)
      language :=
        ((s.developers.filter (fun d => d.emp_id == e.emp_id)).head?).map
          (fun d => d.language) })

/-! ## Record Writer: create -/

/-- Decoded POST body of the net/http variant's `createEmployee`.  Go's
`encoding/json` leaves absent fields at their zero value, so an absent
`emp_id` arrives as `0`. -/
structure CreateBody where
  emp_id : Int := 0
  emp_name : String := ""
  department : String := ""
  language : String := ""
deriving DecidableEq, Repr

/-- Handler `createEmployee` of src/goBack/main.go.  Arguments: allocator counter,
decoded body (`none` = the JSON body failed to decode), fault oracle, store.
Returns the new counter, the new store, and the response.  When `emp_id` is
zero the id comes from `nextID`; then Employee, Department and Developers are
inserted in that order, stopping at the first failing insert with a 500 and
no rollback. -/
def createEmployee (c : Int) (body : Option CreateBody) (f : StoreFaults)
    (s : Store) : Int × Store × Response :=
  match body with
  | none => (c, s, { status := 400, error := some "invalid input" })
  | some input =>
    let p := if input.emp_id = 0 then nextID c else (input.emp_id, c)
    match f.employee with
    | some m => (p.2, s, { status := 500, error := some ("insert employee: " ++ m) })
    | none =>
      let s1 := { s with employee := s.employee ++ [⟨p.1, input.emp_name⟩] }
      match f.department with
      | some m => (p.2, s1, { status := 500, error := some ("insert department: " ++ m) })
      | none =>
        let s2 := { s1 with department := s1.department ++ [⟨p.1, input.department⟩] }
        match f.developers with
        | some m => (p.2, s2, { status := 500, error := some ("insert developers: " ++ m) })
        | none =>
          let s3 := { s2 with developers := s2.developers ++ [⟨p.1, input.language⟩] }
          (p.2, s3, { status := 201
                      message := some "Employee created successfully"
                      emp_id := some p.1 })

/-- Decoded POST body of the Gin variant's `createEmployee`: `emp_id` and
`emp_name` carry `binding:"required"`, so absence must be observable and the
fields are modelled as options; `department` and `language` default to the
zero value when absent. -/
structure GinCreateBody where
  emp_id : Option Int := none
  emp_name : Option String := none
  department : String := ""
  language : String := ""
deriving DecidableEq, Repr

/-- Handler `createEmployee` of the Gin variant (src/unnamed/part_000).
`ShouldBindJSON` rejects an unparseable body and, via `binding:"required"`,
an absent or zero `emp_id` and an absent or empty `emp_name`, with a 400.
There is no id allocator.  The three inserts run in the same order as the
net/http variant; the success response is 201 with only a message — no
`emp_id` field in the body. -/
def ginCreateEmployee (body : Option GinCreateBody) (f : StoreFaults)
    (s : Store) : Store × Response :=
  match body with
  | none => (s, { status := 400, error := some "bind error" })
  | some b =>
    match b.emp_id, b.emp_name with
    | some eid, some name =>
      if eid = 0 ∨ name = "" then
        (s, { status := 400, error := some "bind error" })
      else
        match f.employee with
        | some m => (s, { status := 500, error := some m })
        | none =>
          let s1 := { s with employee := s.employee ++ [⟨eid, name⟩] }
          match f.department with
          | some m => (s1, { status := 500, error := some m })
          | none =>
            let s2 := { s1 with department := s1.department ++ [⟨eid, b.department⟩] }
            match f.developers with
            | some m => (s2, { status := 500, error := some m })
            | none =>
              let s3 := { s2 with developers := s2.developers ++ [⟨eid, b.language⟩] }
              (s3, { status := 201, message := some "Employee created successfully" })
    | _, _ => (s, { status := 400, error := some "bind error" })

/-! ## Record Writer: update -/

/-- Decoded PUT body (`*string` fields in both Go variants: `none` = field
absent from the JSON). -/
structure UpdateBody where
  emp_name : Option String := none
  department : Option String := none
  language : Option String := none
deriving DecidableEq, Repr

/-- Mongo `UpdateOne` without upsert on Employee: `$set emp_name` on the first row
matching `emp_id`; no change when none matches. -/
def updateOneEmp : List EmployeeRow → Int → String → List EmployeeRow
  | [], _, _ => []
  | r :: rs, id, v =>
    if r.emp_id = id then { r with emp_name := v } :: rs
    else r :: updateOneEmp rs id v

/-- Mongo `UpdateOne` with upsert on Department: `$set department_name` on the
first matching row, or insertion of `{emp_id, department_name}` when none
matches. -/
def upsertDept : List DepartmentRow → Int → String → List DepartmentRow
  | [], id, v => [⟨id, v⟩]
  | r :: rs, id, v =>
    if r.emp_id = id then { r with department_name := v } :: rs
    else r :: upsertDept rs id v

/-- Mongo `UpdateOne` with upsert on Developers: `$set language` on the first
matching row, or insertion of `{emp_id, language}` when none matches. -/
def upsertDev : List DeveloperRow → Int → String → List DeveloperRow
  | [], id, v => [⟨id, v⟩]
  | r :: rs, id, v =>
    if r.emp_id = id then { r with language := v } :: rs
    else r :: upsertDev rs id v

/-- Third stage of `updateEmployee`: the optional Developers update, then the
success response. -/
def updStepLang (empId : Int) (lang : Option String) (f : StoreFaults)
    (s : Store) : Store × Response :=
  match lang with
  | none => (s, { status := 200, message := some "Employee updated successfully" })
  | some v =>
    match f.developers with
    | some m => (s, { status := 500, error := some ("update developers: " ++ m) })
    | none =>
      ({ s with developers := upsertDev s.developers empId v },
       { status := 200, message := some "Employee updated successfully" })

/-- Second stage of `updateEmployee`: the optional Department upsert. -/
def updStepDept (empId : Int) (dept lang : Option String) (f : StoreFaults)
    (s : Store) : Store × Response :=
  match dept with
  | none => updStepLang empId lang f s
  | some v =>
    match f.department with
    | some m => (s, { status := 500, error := some ("update department: " ++ m) })
    | none =>
      updStepLang empId lang f { s with department := upsertDept s.department empId v }

/-- Handler `updateEmployee` (same store logic in both variants): decode the body
(400 on parse failure), then apply the three optional field updates in order
— Employee (`$set emp_name`, no upsert), Department (upsert), Developers
(upsert) — stopping at the first failing operation with a 500 and no
rollback; otherwise 200 with a success message. -/
def updateEmployee (empId : Int) (body : Option UpdateBody) (f : StoreFaults)
    (s : Store) : Store × Response :=
  match body with
  | none => (s, { status := 400, error := some "invalid input" })
  | some b =>
    match b.emp_name with
    | none => updStepDept empId b.department b.language f s
    | some v =>
      match f.employee with
      | some m => (s, { status := 500, error := some ("update employee: " ++ m) })
      | none =>
        updStepDept empId b.department b.language f
          { s with employee := updateOneEmp s.employee empId v }

/-! ## Record Writer: delete -/

/-- Mongo `DeleteOne` on Employee: remove the first row matching `emp_id`,
returning the remaining list and the deleted count (0 or 1). -/
def deleteOneEmp : List EmployeeRow → Int → List EmployeeRow × Nat
  | [], _ => ([], 0)
  | r :: rs, id =>
    if r.emp_id = id then (rs, 1)
    else
      let p := deleteOneEmp rs id
      (r :: p.1, p.2)

/-- Handler `deleteEmployee` (same store logic in both variants): `DeleteOne` on
Employee, then `DeleteMany` on Department and on Developers, stopping at the
first failing operation with a 500; otherwise 200 with the Employee deleted
count. -/
def deleteEmployee (empId : Int) (f : StoreFaults) (s : Store) :
    Store × Response :=
  match f.employee with
  | some m => (s, { status := 500, error := some ("delete employee: " ++ m) })
  | none =>
    let p := deleteOneEmp s.employee empId
    let s1 := { s with employee := p.1 }
    match f.department with
    | some m => (s1, { status := 500, error := some ("delete department: " ++ m) })
    | none =>
      let s2 := { s1 with department := s1.department.filter (fun r => r.emp_id != empId) }
      match f.developers with
      | some m => (s2, { status := 500, error := some ("delete developers: " ++ m) })
      | none =>
        let s3 := { s2 with developers := s2.developers.filter (fun r => r.emp_id != empId) }
        (s3, { status := 200
               message := some "Employee deleted successfully"
               deleted_count := some p.2 })

/-! ## Routing for /api/employees/{id} (src/goBack/main.go, empByIDHandler) -/

/-- HTTP method, restricted to what the handler distinguishes. -/
inductive Method
  | get | post | put | delete | options
deriving DecidableEq, Repr

/-- Digit-string accumulator for `atoi`. -/
def parseDigitsAux : List Char → Nat → Option Nat
  | [], acc => some acc
  | ch :: cs, acc =>
    if ch.isDigit then parseDigitsAux cs (acc * 10 + (ch.toNat - 48)) else none

/-- Go `strconv.Atoi`: an optional sign followed by at least one decimal digit;
anything else is an error (`none`). -/
def atoi (str : String) : Option Int :=
  match str.data with
  | [] => none
  | '-' :: cs =>
    match cs with
    | [] => none
    | _ => (parseDigitsAux cs 0).map (fun n => -(n : Int))
  | '+' :: cs =>
    match cs with
    | [] => none
    | _ => (parseDigitsAux cs 0).map (fun n => (n : Int))
  | cs => (parseDigitsAux cs 0).map (fun n => (n : Int))

/-- Handler `empByIDHandler` answers OPTIONS immediately, requires a nonempty path
id that parses as an integer (400 otherwise, before any store access), then
dispatches PUT to `updateEmployee` and DELETE to `deleteEmployee` (405 for
other methods).  DELETE never reads the request body. -/
def empByIDHandler (m : Method) (idStr : String) (body : Option UpdateBody)
    (f : StoreFaults) (s : Store) : Store × Response :=
  match m with
  | Method.options => (s, { status := 200 })
  | _ =>
    if idStr = "" then (s, { status := 400, error := some "id required in path" })
    else
      match atoi idStr with
      | none => (s, { status := 400, error := some "invalid id" })
      | some id =>
        match m with
        | Method.put => updateEmployee id body f s
        | Method.delete => deleteEmployee id f s
        | _ => (s, { status := 405, error := some "Method not allowed" })

/-! ## Sequences of create calls (for the allocator claim) -/

/-- A chain of successful `createEmployee` calls, threading counter and
store, collecting the `emp_id` of each 201 response. -/
def createChain (c : Int) (s : Store) : List CreateBody → Int × Store × List Int
  | [] => (c, s, [])
  | b :: bs =>
    let r := createEmployee c (some b) noFaults s
    let rest := createChain r.1 r.2.1 bs
    (rest.1, rest.2.1, r.2.2.emp_id.getD 0 :: rest.2.2)

/-- The list `[c, c+1, …, c+n-1]` of consecutive integers. -/
def intRange (c : Int) : Nat → List Int
  | 0 => []
  | n + 1 => c :: intRange (c + 1) n

/-! ## Helper lemmas -/

theorem maxIdAux_le_acc (l : List EmployeeRow) : ∀ acc : Int, acc ≤ maxIdAux acc l := by
  induction l with
  | nil => intro acc; exact le_refl _
  | cons r rs ih => intro acc; exact le_trans (le_max_left _ _) (ih _)

theorem maxIdAux_mem_le (l : List EmployeeRow) :
    ∀ acc : Int, ∀ r ∈ l, r.emp_id ≤ maxIdAux acc l := by
  induction l with
  | nil => intro acc r hr; cases hr
  | cons x xs ih =>
    intro acc r hr
    rcases List.mem_cons.mp hr with h | h
    · subst h; exact le_trans (le_max_right _ _) (maxIdAux_le_acc xs _)
    · exact ih _ r h

theorem maxIdAux_attained (l : List EmployeeRow) : ∀ acc : Int,
    maxIdAux acc l = acc ∨ ∃ r ∈ l, maxIdAux acc l = r.emp_id := by
  induction l with
  | nil => intro acc; left; rfl
  | cons x xs ih =>
    intro acc
    rcases ih (max acc x.emp_id) with h | h
    · rcases le_or_lt x.emp_id acc with hle | hlt
      · left
        show maxIdAux (max acc x.emp_id) xs = acc
        rw [h, max_eq_left hle]
      · right
        refine ⟨x, List.mem_cons_self _ _, ?_⟩
        show maxIdAux (max acc x.emp_id) xs = x.emp_id
        rw [h, max_eq_right (le_of_lt hlt)]
    · right
      obtain ⟨r, hr, he⟩ := h
      exact ⟨r, List.mem_cons_of_mem _ hr, he⟩

theorem intRange_mem_ge (n : Nat) : ∀ c x : Int, x ∈ intRange c n → c ≤ x := by
  induction n with
  | zero => intro c x hx; cases hx
  | succ n ih =>
    intro c x hx
    rcases List.mem_cons.mp hx with h | h
    · subst h; exact le_refl _
    · exact le_trans (by omega) (ih (c + 1) x h)

theorem intRange_pairwise (n : Nat) : ∀ c : Int, (intRange c n).Pairwise (· < ·) := by
  induction n with
  | zero => intro c; exact List.Pairwise.nil
  | succ n ih =>
    intro c
    refine List.pairwise_cons.mpr ⟨?_, ih (c + 1)⟩
    intro x hx
    have := intRange_mem_ge n (c + 1) x hx
    omega

theorem createChain_ids (bs : List CreateBody) : ∀ (c : Int) (s : Store),
    (∀ b ∈ bs, b.emp_id = 0) →
    (createChain c s bs).2.2 = intRange c bs.length := by
  induction bs with
  | nil => intro c s _; rfl
  | cons b bs ih =>
    intro c s h
    have hb : b.emp_id = 0 := h b (List.mem_cons_self _ _)
    have htl := ih (c + 1)
      (createEmployee c (some b) noFaults s).2.1
      (fun x hx => h x (List.mem_cons_of_mem _ hx))
    simp only [createEmployee, hb, if_pos, nextID, noFaults] at htl
    simp only [createChain, createEmployee, hb, if_pos, nextID, noFaults, intRange,
      List.length_cons, Option.getD_some]
    rw [htl]

theorem head_filter {α : Type} (p : α → Bool) (l : List α) :
    (l.filter p).head? = l.find? p := by
  induction l with
  | nil => rfl
  | cons a l ih =>
    by_cases h : p a
    · simp [List.filter_cons, List.find?_cons, h]
    · simp only [List.filter_cons, List.find?_cons] at *
      simp [h, ih]

theorem filter_nil_of {α : Type} (p : α → Bool) (l : List α)
    (h : ∀ a ∈ l, p a = false) : l.filter p = [] := by
  induction l with
  | nil => rfl
  | cons a l ih =>
    simp only [List.filter_cons, h a (List.mem_cons_self _ _), Bool.false_eq_true,
      if_false]
    exact ih (fun x hx => h x (List.mem_cons_of_mem _ hx))

/-! ## C1 and C3 -/

/-- C1: the Identity Allocator's counter is initialized to
(max existing emp_id) + 1, or 1 when the Employee collection is empty;
`nextID` returns the current counter and increments it; and over any
sequence of create calls without an explicit emp_id the allocated ids start
at the counter and are strictly increasing and pairwise distinct. -/
theorem C1_identity_allocator (s : Store) (c : Int) (bs : List CreateBody) :
    (s.employee = [] → initIDCounter s = 1)
    ∧ (s.employee ≠ [] →
        (∀ e ∈ s.employee, e.emp_id + 1 ≤ initIDCounter s)
        ∧ ∃ e ∈ s.employee, initIDCounter s = e.emp_id + 1)
    ∧ nextID c = (c, c + 1)
    ∧ ((∀ b ∈ bs, b.emp_id = 0) →
        (createChain c s bs).2.2.Pairwise (· < ·)
        ∧ (createChain c s bs).2.2.Nodup
        ∧ (bs ≠ [] → (createChain c s bs).2.2.head? = some c)) := by
  refine ⟨?_, ?_, rfl, ?_⟩
  · intro h
    simp [initIDCounter, h]
  · intro hne
    rcases hE : s.employee with _ | ⟨e, es⟩
    · exact absurd hE hne
    constructor
    · intro r hr
      have hle : r.emp_id ≤ maxIdAux e.emp_id es := by
        rcases List.mem_cons.mp hr with h | h
        · subst h; exact maxIdAux_le_acc es _
        · exact maxIdAux_mem_le es _ r h
      have hval : initIDCounter s = maxIdAux e.emp_id es + 1 := by
        simp [initIDCounter, hE]
      omega
    · rcases maxIdAux_attained es e.emp_id with h | ⟨r, hr, he⟩
      · exact ⟨e, List.mem_cons_self _ _, by simp [initIDCounter, hE, h]⟩
      · exact ⟨r, List.mem_cons_of_mem _ hr, by simp [initIDCounter, hE, he]⟩
  · intro h
    rw [createChain_ids bs c s h]
    refine ⟨intRange_pairwise _ _, ?_, ?_⟩
    · exact (intRange_pairwise bs.length c).imp (fun hlt => ne_of_lt hlt)
    · intro hbs
      rcases bs with _ | ⟨b, bs⟩
      · exact absurd rfl hbs
      · rfl

/-- C3: `lastEmployeeId` returns 0 on an empty Employee collection and the
maximum `emp_id` (a bound that is attained) otherwise. -/
theorem C3_last_employee_id (s : Store) :
    (s.employee = [] → getLastEmpID s = 0)
    ∧ (s.employee ≠ [] →
        (∀ e ∈ s.employee, e.emp_id ≤ getLastEmpID s)
        ∧ ∃ e ∈ s.employee, e.emp_id = getLastEmpID s) := by
  constructor
  · intro h; simp [getLastEmpID, h]
  · intro hne
    rcases hE : s.employee with _ | ⟨e, es⟩
    · exact absurd hE hne
    constructor
    · intro r hr
      have hv : getLastEmpID s = maxIdAux e.emp_id es := by simp [getLastEmpID, hE]
      rw [hv]
      rcases List.mem_cons.mp hr with h | h
      · subst h; exact maxIdAux_le_acc es _
      · exact maxIdAux_mem_le es _ r h
    · rcases maxIdAux_attained es e.emp_id with h | ⟨r, hr, he⟩
      · exact ⟨e, List.mem_cons_self _ _, by simp [getLastEmpID, hE, h]⟩
      · exact ⟨r, List.mem_cons_of_mem _ hr, by simp [getLastEmpID, hE, he]⟩

/-- Witness for C1: concrete empty store, counter 1, three id-less creates. -/
theorem C1_identity_allocator_witness :
    initIDCounter { employee := [], department := [], developers := [] } = 1
    ∧ (createChain 1 { employee := [], department := [], developers := [] }
        [{}, {}, {}]).2.2.Pairwise (· < ·) := by
  have h := C1_identity_allocator
    { employee := [], department := [], developers := [] } 1 [{}, {}, {}]
  exact ⟨h.1 rfl, (h.2.2.2 (by decide)).1⟩

/-- Witness for C3: empty store gives 0; on a three-row store the returned
value is attained by some row. -/
theorem C3_last_employee_id_witness :
    getLastEmpID { employee := [], department := [], developers := [] } = 0
    ∧ ∃ e ∈ [(⟨3, "a"⟩ : EmployeeRow), ⟨9, "b"⟩, ⟨4, "c"⟩], e.emp_id =
        getLastEmpID { employee := [⟨3, "a"⟩, ⟨9, "b"⟩, ⟨4, "c"⟩],
                       department := [], developers := [] } := by
  have h0 := (C3_last_employee_id { employee := [], department := [], developers := [] }).1 rfl
  have h1 := ((C3_last_employee_id
    { employee := [⟨3, "a"⟩, ⟨9, "b"⟩, ⟨4, "c"⟩], department := [],
      developers := [] }).2 (by decide)).2
  exact ⟨h0, h1⟩

/-! ## C2, C4, C9, C10: the Record Writer against the Aggregation Reader -/

theorem createEmployee_success (c : Int) (b : CreateBody) (s : Store) :
    createEmployee c (some b) noFaults s =
      (if b.emp_id = 0 then c + 1 else c,
       { employee := s.employee ++ [⟨if b.emp_id = 0 then c else b.emp_id, b.emp_name⟩]
         department := s.department ++ [⟨if b.emp_id = 0 then c else b.emp_id, b.department⟩]
         developers := s.developers ++ [⟨if b.emp_id = 0 then c else b.emp_id, b.language⟩] },
       { status := 201
         message := some "Employee created successfully"
         emp_id := some (if b.emp_id = 0 then c else b.emp_id) }) := by
  by_cases h : b.emp_id = 0 <;> simp [createEmployee, noFaults, nextID, h]

theorem filter_map_nil {α β : Type} (f : α → β) (p : β → Bool) (l : List α)
    (h : ∀ a ∈ l, p (f a) = false) : (l.map f).filter p = [] := by
  apply filter_nil_of
  intro x hx
  obtain ⟨a, ha, rfl⟩ := List.mem_map.mp hx
  exact h a ha

/-- Listing a store extended with fresh rows for id `i` (no prior row in any
collection): the entries for id `i` are exactly the one new joined entry. -/
theorem getEmployees_fresh (s : Store) (i : Int) (n d v : String)
    (hE : ∀ e ∈ s.employee, e.emp_id ≠ i)
    (hD : ∀ r ∈ s.department, r.emp_id ≠ i)
    (hV : ∀ r ∈ s.developers, r.emp_id ≠ i) :
    (getEmployees { employee := s.employee ++ [⟨i, n⟩]
                    department := s.department ++ [⟨i, d⟩]
                    developers := s.developers ++ [⟨i, v⟩] }).filter
        (fun x => x.emp_id == i)
      = [{ emp_id := i, emp_name := n, department := some d, language := some v }] := by
  have hd : (s.department ++ [(⟨i, d⟩ : DepartmentRow)]).filter (fun r => r.emp_id == i)
      = [⟨i, d⟩] := by
    rw [List.filter_append, filter_nil_of _ _ (fun r hr => by
      simpa using hD r hr)]
    simp
  have hv : (s.developers ++ [(⟨i, v⟩ : DeveloperRow)]).filter (fun r => r.emp_id == i)
      = [⟨i, v⟩] := by
    rw [List.filter_append, filter_nil_of _ _ (fun r hr => by
      simpa using hV r hr)]
    simp
  unfold getEmployees
  rw [List.map_append, List.filter_append]
  rw [filter_map_nil _ _ _ (fun e he => by simpa using hE e he)]
  simp only [List.map_cons, List.map_nil, List.nil_append]
  rw [List.filter_cons]
  simp only [hd, hv]
  simp

/-- C2: `listEmployees` produces one entry per Employee row carrying its
`emp_id` and `emp_name`, joined with the first matching Department row's
`department_name` and the first matching Developers row's `language`
(absent when no row matches); and after `create(5, "A", "Eng", "Go")` on a
store with no rows for id 5, the listing contains exactly one entry for id 5,
namely `{5, "A", some "Eng", some "Go"}`. -/
theorem C2_list_employees (s : Store) (c : Int) :
    getEmployees s = s.employee.map (fun e =>
      { emp_id := e.emp_id
        emp_name := e.emp_name
        department := (s.department.find? (fun x => x.emp_id == e.emp_id)).map
          (fun x => x.department_name)
        language := (s.developers.find? (fun x => x.emp_id == e.emp_id)).map
          (fun x => x.language) })
    ∧ ((∀ e ∈ s.employee, e.emp_id ≠ 5) →
       (∀ r ∈ s.department, r.emp_id ≠ 5) →
       (∀ r ∈ s.developers, r.emp_id ≠ 5) →
       (createEmployee c
           (some { emp_id := 5, emp_name := "A", department := "Eng", language := "Go" })
           noFaults s).2.2.status = 201
       ∧ (getEmployees (createEmployee c
             (some { emp_id := 5, emp_name := "A", department := "Eng", language := "Go" })
             noFaults s).2.1).filter (fun x => x.emp_id == 5)
         = [{ emp_id := 5, emp_name := "A", department := some "Eng", language := some "Go" }]) := by
  constructor
  · unfold getEmployees
    simp only [head_filter]
  · intro hE hD hV
    rw [createEmployee_success]
    norm_num
    exact getEmployees_fresh s 5 "A" "Eng" "Go" hE hD hV

/-- Witness for C2 at the empty store. -/
theorem C2_list_employees_witness :
    (getEmployees (createEmployee 1
        (some { emp_id := 5, emp_name := "A", department := "Eng", language := "Go" })
        noFaults { employee := [], department := [], developers := [] }).2.1).filter
      (fun x => x.emp_id == 5)
    = [{ emp_id := 5, emp_name := "A", department := some "Eng", language := some "Go" }] := by
  exact ((C2_list_employees { employee := [], department := [], developers := [] } 1).2
    (by decide) (by decide) (by decide)).2

/-- C10: an update whose body parses to `{}` (all three fields absent)
issues no store operation — even under an all-failing store the three
collections are untouched — and still reports 200 with the success
message. -/
theorem C10_empty_update_noop (empId : Int) (f : StoreFaults) (s : Store) :
    updateEmployee empId (some {}) f s
      = (s, { status := 200, message := some "Employee updated successfully" }) := rfl

/-- C4: create inserts into Employee, then Department, then Developers; on
the first failing insert it reports a 500 immediately and the rows inserted
before the failure persist (no rollback); with no failure all three rows are
inserted and the status is 201. -/
theorem C4_create_order_no_rollback (c : Int) (b : CreateBody) (f : StoreFaults) (s : Store) :
    (∀ m, f.employee = some m →
      (createEmployee c (some b) f s).2.1 = s
      ∧ (createEmployee c (some b) f s).2.2.status = 500)
    ∧ (∀ m, f.employee = none → f.department = some m →
      (createEmployee c (some b) f s).2.1
        = { s with employee :=
              s.employee ++ [⟨if b.emp_id = 0 then c else b.emp_id, b.emp_name⟩] }
      ∧ (createEmployee c (some b) f s).2.2.status = 500)
    ∧ (∀ m, f.employee = none → f.department = none → f.developers = some m →
      (createEmployee c (some b) f s).2.1
        = { s with
            employee := s.employee ++ [⟨if b.emp_id = 0 then c else b.emp_id, b.emp_name⟩]
            department := s.department ++ [⟨if b.emp_id = 0 then c else b.emp_id, b.department⟩] }
      ∧ (createEmployee c (some b) f s).2.2.status = 500)
    ∧ (f = noFaults →
      (createEmployee c (some b) f s).2.1
        = { employee := s.employee ++ [⟨if b.emp_id = 0 then c else b.emp_id, b.emp_name⟩]
            department := s.department ++ [⟨if b.emp_id = 0 then c else b.emp_id, b.department⟩]
            developers := s.developers ++ [⟨if b.emp_id = 0 then c else b.emp_id, b.language⟩] }
      ∧ (createEmployee c (some b) f s).2.2.status = 201) := by
  refine ⟨?_, ?_, ?_, ?_⟩
  · intro m hm
    by_cases h0 : b.emp_id = 0 <;> simp [createEmployee, nextID, h0, hm]
  · intro m he hd
    by_cases h0 : b.emp_id = 0 <;> simp [createEmployee, nextID, h0, he, hd]
  · intro m he hd hv
    by_cases h0 : b.emp_id = 0 <;> simp [createEmployee, nextID, h0, he, hd, hv]
  · intro hf
    subst hf
    rw [createEmployee_success]
    exact ⟨rfl, rfl⟩

/-- Witness for C4: a create whose Department insert fails leaves the
already-inserted Employee row behind and answers 500. -/
theorem C4_create_order_no_rollback_witness :
    (createEmployee 1 (some { emp_name := "B", department := "QA", language := "Py" })
        { department := some "boom" }
        { employee := [], department := [], developers := [] }).2.1
      = { employee := [⟨1, "B"⟩], department := [], developers := [] }
    ∧ (createEmployee 1 (some { emp_name := "B", department := "QA", language := "Py" })
        { department := some "boom" }
        { employee := [], department := [], developers := [] }).2.2.status = 500 := by
  have h := (C4_create_order_no_rollback 1
    { emp_name := "B", department := "QA", language := "Py" }
    { department := some "boom" }
    { employee := [], department := [], developers := [] }).2.1 "boom" rfl rfl
  exact ⟨by rw [h.1]; decide, h.2⟩

theorem countP_getEmployees (s : Store) (i : Int) :
    (getEmployees s).countP (fun x => x.emp_id == i)
      = s.employee.countP (fun e => e.emp_id == i) := by
  unfold getEmployees
  rw [List.countP_map]
  rfl

/-- C9: create performs no uniqueness check — invoking it with an `emp_id`
that already has an Employee row succeeds with 201, adds one more row to
each of the three collections for that id, and afterwards the listing holds
at least two entries with that `emp_id`. -/
theorem C9_duplicate_create (c : Int) (s : Store) (b : CreateBody)
    (h0 : b.emp_id ≠ 0)
    (h : 0 < s.employee.countP (fun e => e.emp_id == b.emp_id)) :
    (createEmployee c (some b) noFaults s).2.2.status = 201
    ∧ (createEmployee c (some b) noFaults s).2.1.employee.countP
        (fun e => e.emp_id == b.emp_id)
      = s.employee.countP (fun e => e.emp_id == b.emp_id) + 1
    ∧ (createEmployee c (some b) noFaults s).2.1.department.countP
        (fun r => r.emp_id == b.emp_id)
      = s.department.countP (fun r => r.emp_id == b.emp_id) + 1
    ∧ (createEmployee c (some b) noFaults s).2.1.developers.countP
        (fun r => r.emp_id == b.emp_id)
      = s.developers.countP (fun r => r.emp_id == b.emp_id) + 1
    ∧ 2 ≤ (getEmployees (createEmployee c (some b) noFaults s).2.1).countP
        (fun x => x.emp_id == b.emp_id) := by
  rw [createEmployee_success]
  simp only [if_neg h0]
  refine ⟨trivial, ?_, ?_, ?_, ?_⟩
  · rw [List.countP_append]; simp
  · rw [List.countP_append]; simp
  · rw [List.countP_append]; simp
  · rw [countP_getEmployees]
    simp only [List.countP_append]
    have hx : List.countP (fun e => e.emp_id == b.emp_id)
        [(⟨b.emp_id, b.emp_name⟩ : EmployeeRow)] = 1 := by simp
    omega

/-- Witness for C9: re-creating id 5 on a store that already has id 5 in
all three collections yields two listing entries for id 5. -/
theorem C9_duplicate_create_witness :
    2 ≤ (getEmployees (createEmployee 1
        (some { emp_id := 5, emp_name := "B", department := "QA", language := "Py" })
        noFaults
        { employee := [⟨5, "A"⟩], department := [⟨5, "Eng"⟩],
          developers := [⟨5, "Go"⟩] }).2.1).countP (fun x => x.emp_id == 5) := by
  exact (C9_duplicate_create 1
    { employee := [⟨5, "A"⟩], department := [⟨5, "Eng"⟩], developers := [⟨5, "Go"⟩] }
    { emp_id := 5, emp_name := "B", department := "QA", language := "Py" }
    (by decide) (by decide)).2.2.2.2

/-! ## C5: create responses across the two server variants -/

/-- C5 counterexample: in the Gin variant a successful create answers 201
with a body that has no `emp_id` field, and a create whose `emp_id` is zero
is rejected with 400 rather than being given an allocator id. -/
theorem C5_counterexample :
    (ginCreateEmployee (some { emp_id := some 5, emp_name := some "A" }) noFaults
        { employee := [], department := [], developers := [] }).2.status = 201
    ∧ (ginCreateEmployee (some { emp_id := some 5, emp_name := some "A" }) noFaults
        { employee := [], department := [], developers := [] }).2.emp_id = none
    ∧ (ginCreateEmployee (some { emp_id := some 0, emp_name := some "A" }) noFaults
        { employee := [], department := [], developers := [] }).2.status = 400 := by
  refine ⟨?_, ?_, ?_⟩ <;> decide

/-- Case split on the Gin create's response: it is a 400, a 500, or the
fixed 201 success response (message only, no emp_id). -/
theorem ginCreate_cases (b : GinCreateBody) (f : StoreFaults) (s : Store) :
    (ginCreateEmployee (some b) f s).2.status = 400
    ∨ (ginCreateEmployee (some b) f s).2.status = 500
    ∨ (ginCreateEmployee (some b) f s).2
        = { status := 201, message := some "Employee created successfully" } := by
  rcases b with ⟨ge, gn, gd, gl⟩
  rcases f with ⟨fe, fd, fv⟩
  cases ge <;> cases gn <;> cases fe <;> cases fd <;> cases fv <;>
    simp [ginCreateEmployee] <;> split_ifs <;> simp

/-- C5 (amended): in the net/http variant a zero/absent `emp_id` draws the
next allocator id (the counter value, which is then incremented) and every
successful create answers 201 carrying both the message and the assigned
`emp_id`; in the Gin variant `emp_id` is required — an absent or zero
`emp_id` is rejected with 400 before any store access — and a successful
create answers 201 with the message only, without an `emp_id` field. -/
theorem C5_create_response (c : Int) (b : CreateBody) (g : GinCreateBody)
    (f : StoreFaults) (s : Store) :
    (b.emp_id = 0 → (createEmployee c (some b) f s).1 = c + 1)
    ∧ ((createEmployee c (some b) f s).2.2.status = 201 →
        (createEmployee c (some b) f s).2.2.message = some "Employee created successfully"
        ∧ (createEmployee c (some b) f s).2.2.emp_id
            = some (if b.emp_id = 0 then c else b.emp_id))
    ∧ ((g.emp_id = none ∨ g.emp_id = some 0) →
        (ginCreateEmployee (some g) f s).1 = s
        ∧ (ginCreateEmployee (some g) f s).2.status = 400)
    ∧ ((ginCreateEmployee (some g) f s).2.status = 201 →
        (ginCreateEmployee (some g) f s).2.message = some "Employee created successfully"
        ∧ (ginCreateEmployee (some g) f s).2.emp_id = none) := by
  refine ⟨?_, ?_, ?_, ?_⟩
  · intro h0
    rcases f with ⟨fe, fd, fv⟩
    cases fe <;> cases fd <;> cases fv <;> simp [createEmployee, nextID, h0]
  · intro h201
    rcases f with ⟨fe, fd, fv⟩
    by_cases h0 : b.emp_id = 0 <;>
      cases fe <;> cases fd <;> cases fv <;>
      simp [createEmployee, nextID, h0] at h201 ⊢
  · intro h
    rcases hn : g.emp_name with _ | name
    · rcases h with h | h <;> simp [ginCreateEmployee, h, hn]
    · rcases h with h | h <;> simp [ginCreateEmployee, h, hn]
  · intro h201
    rcases ginCreate_cases g f s with h | h | h
    · rw [h201] at h; exact absurd h (by decide)
    · rw [h201] at h; exact absurd h (by decide)
    · rw [h]; exact ⟨rfl, rfl⟩

/-- Witness for C5 (amended): an id-less create on the net/http variant
bumps the counter from 7 to 8; a zero-id create on the Gin variant is a
400. -/
theorem C5_create_response_witness :
    (createEmployee 7 (some { emp_name := "B", department := "QA", language := "Py" })
        noFaults { employee := [], department := [], developers := [] }).1 = 8
    ∧ (ginCreateEmployee (some { emp_id := some 0, emp_name := some "B" }) noFaults
        { employee := [], department := [], developers := [] }).2.status = 400 := by
  have h := C5_create_response 7
    { emp_name := "B", department := "QA", language := "Py" }
    { emp_id := some 0, emp_name := some "B" } noFaults
    { employee := [], department := [], developers := [] }
  have h1 := h.1 rfl
  exact ⟨by omega, (h.2.2.1 (Or.inr rfl)).2⟩

/-! ## C6: update semantics -/

theorem updateOneEmp_not_mem (l : List EmployeeRow) (id : Int) (v : String)
    (h : ∀ r ∈ l, r.emp_id ≠ id) : updateOneEmp l id v = l := by
  induction l with
  | nil => rfl
  | cons r rs ih =>
    have h1 : r.emp_id ≠ id := h r (List.mem_cons_self _ _)
    simp only [updateOneEmp, if_neg h1]
    rw [ih (fun x hx => h x (List.mem_cons_of_mem _ hx))]

theorem upsertDept_not_mem (l : List DepartmentRow) (id : Int) (v : String)
    (h : ∀ r ∈ l, r.emp_id ≠ id) : upsertDept l id v = l ++ [⟨id, v⟩] := by
  induction l with
  | nil => rfl
  | cons r rs ih =>
    have h1 : r.emp_id ≠ id := h r (List.mem_cons_self _ _)
    simp only [upsertDept, if_neg h1, List.cons_append]
    rw [ih (fun x hx => h x (List.mem_cons_of_mem _ hx))]

theorem upsertDev_not_mem (l : List DeveloperRow) (id : Int) (v : String)
    (h : ∀ r ∈ l, r.emp_id ≠ id) : upsertDev l id v = l ++ [⟨id, v⟩] := by
  induction l with
  | nil => rfl
  | cons r rs ih =>
    have h1 : r.emp_id ≠ id := h r (List.mem_cons_self _ _)
    simp only [upsertDev, if_neg h1, List.cons_append]
    rw [ih (fun x hx => h x (List.mem_cons_of_mem _ hx))]

theorem upsertDept_split (l1 l2 : List DepartmentRow) (r : DepartmentRow)
    (id : Int) (v : String) (h1 : ∀ x ∈ l1, x.emp_id ≠ id) (hr : r.emp_id = id) :
    upsertDept (l1 ++ r :: l2) id v = l1 ++ ⟨id, v⟩ :: l2 := by
  induction l1 with
  | nil =>
    simp only [List.nil_append, upsertDept, if_pos hr]
    rw [← hr]
  | cons x xs ih =>
    have hx : x.emp_id ≠ id := h1 x (List.mem_cons_self _ _)
    simp only [List.cons_append, upsertDept, if_neg hx, List.append_eq]
    rw [ih (fun y hy => h1 y (List.mem_cons_of_mem _ hy))]

theorem upsertDev_split (l1 l2 : List DeveloperRow) (r : DeveloperRow)
    (id : Int) (v : String) (h1 : ∀ x ∈ l1, x.emp_id ≠ id) (hr : r.emp_id = id) :
    upsertDev (l1 ++ r :: l2) id v = l1 ++ ⟨id, v⟩ :: l2 := by
  induction l1 with
  | nil =>
    simp only [List.nil_append, upsertDev, if_pos hr]
    rw [← hr]
  | cons x xs ih =>
    have hx : x.emp_id ≠ id := h1 x (List.mem_cons_self _ _)
    simp only [List.cons_append, upsertDev, if_neg hx, List.append_eq]
    rw [ih (fun y hy => h1 y (List.mem_cons_of_mem _ hy))]

/-- C6: an `emp_name` update on a missing Employee row matches zero rows,
changes nothing, and still reports 200; `department` and `language` updates
are upserts — with no matching row a new `{emp_id, field}` row is inserted,
and with a matching row only that field of the first matching row is
overwritten (its `emp_id` is kept, all other rows untouched). -/
theorem C6_update_semantics (empId : Int) (s : Store) (name dept lang : String) :
    ((∀ e ∈ s.employee, e.emp_id ≠ empId) →
      updateEmployee empId (some { emp_name := some name }) noFaults s
        = (s, { status := 200, message := some "Employee updated successfully" }))
    ∧ ((∀ r ∈ s.department, r.emp_id ≠ empId) →
      updateEmployee empId (some { department := some dept }) noFaults s
        = ({ s with department := s.department ++ [⟨empId, dept⟩] },
           { status := 200, message := some "Employee updated successfully" }))
    ∧ (∀ l1 r l2, s.department = l1 ++ r :: l2 → r.emp_id = empId →
        (∀ x ∈ l1, x.emp_id ≠ empId) →
      updateEmployee empId (some { department := some dept }) noFaults s
        = ({ s with department := l1 ++ ⟨empId, dept⟩ :: l2 },
           { status := 200, message := some "Employee updated successfully" }))
    ∧ ((∀ r ∈ s.developers, r.emp_id ≠ empId) →
      updateEmployee empId (some { language := some lang }) noFaults s
        = ({ s with developers := s.developers ++ [⟨empId, lang⟩] },
           { status := 200, message := some "Employee updated successfully" }))
    ∧ (∀ l1 r l2, s.developers = l1 ++ r :: l2 → r.emp_id = empId →
        (∀ x ∈ l1, x.emp_id ≠ empId) →
      updateEmployee empId (some { language := some lang }) noFaults s
        = ({ s with developers := l1 ++ ⟨empId, lang⟩ :: l2 },
           { status := 200, message := some "Employee updated successfully" })) := by
  refine ⟨?_, ?_, ?_, ?_, ?_⟩
  · intro hE
    simp only [updateEmployee, noFaults, updStepDept, updStepLang,
      updateOneEmp_not_mem s.employee empId name hE]
  · intro hD
    simp only [updateEmployee, noFaults, updStepDept, updStepLang,
      upsertDept_not_mem s.department empId dept hD]
  · intro l1 r l2 hsd hr hl1
    simp only [updateEmployee, noFaults, updStepDept, updStepLang, hsd,
      upsertDept_split l1 l2 r empId dept hl1 hr]
  · intro hV
    simp only [updateEmployee, noFaults, updStepDept, updStepLang,
      upsertDev_not_mem s.developers empId lang hV]
  · intro l1 r l2 hsd hr hl1
    simp only [updateEmployee, noFaults, updStepDept, updStepLang, hsd,
      upsertDev_split l1 l2 r empId lang hl1 hr]

/-- Witness for C6: upserting a department for id 5 into an empty store
creates the row; an `emp_name` update for missing id 9 is a 200 no-op. -/
theorem C6_update_semantics_witness :
    updateEmployee 5 (some { department := some "Sales" }) noFaults
        { employee := [], department := [], developers := [] }
      = ({ employee := [], department := [⟨5, "Sales"⟩], developers := [] },
         { status := 200, message := some "Employee updated successfully" })
    ∧ updateEmployee 9 (some { emp_name := some "Z" }) noFaults
        { employee := [⟨1, "A"⟩], department := [], developers := [] }
      = ({ employee := [⟨1, "A"⟩], department := [], developers := [] },
         { status := 200, message := some "Employee updated successfully" }) := by
  have h1 := (C6_update_semantics 5
    { employee := [], department := [], developers := [] } "x" "Sales" "y").2.1
    (by decide)
  have h2 := (C6_update_semantics 9
    { employee := [⟨1, "A"⟩], department := [], developers := [] } "Z" "x" "y").1
    (by decide)
  exact ⟨by rw [h1]; rfl, h2⟩

/-! ## C7: delete semantics -/

theorem countP_zero_iff {α : Type} (p : α → Bool) (l : List α) :
    l.countP p = 0 ↔ ∀ a ∈ l, p a = false := by
  induction l with
  | nil => simp
  | cons a l ih =>
    rw [List.countP_cons]
    by_cases h : p a <;> simp [h, ih, List.forall_mem_cons]

theorem deleteOneEmp_not_mem (l : List EmployeeRow) (id : Int)
    (h : ∀ r ∈ l, r.emp_id ≠ id) : deleteOneEmp l id = (l, 0) := by
  induction l with
  | nil => rfl
  | cons r rs ih =>
    have h1 : r.emp_id ≠ id := h r (List.mem_cons_self _ _)
    simp only [deleteOneEmp, if_neg h1]
    rw [ih (fun x hx => h x (List.mem_cons_of_mem _ hx))]

theorem deleteOneEmp_countP (l : List EmployeeRow) (id : Int) :
    (deleteOneEmp l id).1.countP (fun e => e.emp_id == id) + (deleteOneEmp l id).2
      = l.countP (fun e => e.emp_id == id) := by
  induction l with
  | nil => rfl
  | cons r rs ih =>
    by_cases h1 : r.emp_id = id
    · simp [deleteOneEmp, h1, List.countP_cons]
    · have hb : (r.emp_id == id) = false := by simp [h1]
      simp only [deleteOneEmp, if_neg h1, List.countP_cons, hb, if_false]
      simp only [Bool.false_eq_true, if_false, Nat.add_zero]
      omega

theorem deleteOneEmp_pos (l : List EmployeeRow) (id : Int)
    (h : 0 < l.countP (fun e => e.emp_id == id)) :
    (deleteOneEmp l id).2 = 1
    ∧ ∃ l1 e l2, l = l1 ++ e :: l2 ∧ e.emp_id = id
        ∧ (∀ x ∈ l1, x.emp_id ≠ id) ∧ (deleteOneEmp l id).1 = l1 ++ l2 := by
  induction l with
  | nil => simp at h
  | cons r rs ih =>
    by_cases h1 : r.emp_id = id
    · exact ⟨by simp [deleteOneEmp, h1], [], r, rs, rfl, h1, by simp,
        by simp [deleteOneEmp, h1]⟩
    · have hb : (r.emp_id == id) = false := by simp [h1]
      have h' : 0 < rs.countP (fun e => e.emp_id == id) := by
        rw [List.countP_cons, hb] at h
        simpa using h
      obtain ⟨hc, l1, e, l2, hsplit, hid, hl1, hres⟩ := ih h'
      refine ⟨by simp [deleteOneEmp, h1, hc], r :: l1, e, l2, by rw [hsplit]; rfl,
        hid, ?_, ?_⟩
      · intro x hx
        rcases List.mem_cons.mp hx with rfl | hx
        · exact h1
        · exact hl1 x hx
      · simp [deleteOneEmp, h1, hres]

/-- Handler `deleteEmployee` under the all-successful oracle, in closed form. -/
theorem deleteEmployee_noFaults (empId : Int) (s : Store) :
    deleteEmployee empId noFaults s
      = ({ employee := (deleteOneEmp s.employee empId).1
           department := s.department.filter (fun r => r.emp_id != empId)
           developers := s.developers.filter (fun r => r.emp_id != empId) },
         { status := 200
           message := some "Employee deleted successfully"
           deleted_count := some (deleteOneEmp s.employee empId).2 }) := rfl

/-- C7: delete removes at most one Employee row and reports that count; all
matching Department and Developers rows are removed (and no others); a
missing Employee row is not an error — the count is just 0 — and deleting a
uniquely-present id twice reports counts 1 then 0, both calls answering
200. -/
theorem C7_delete (empId : Int) (s : Store) :
    (deleteEmployee empId noFaults s).2.status = 200
    ∧ (∀ r : DepartmentRow, r ∈ (deleteEmployee empId noFaults s).1.department
        ↔ (r ∈ s.department ∧ r.emp_id ≠ empId))
    ∧ (∀ r : DeveloperRow, r ∈ (deleteEmployee empId noFaults s).1.developers
        ↔ (r ∈ s.developers ∧ r.emp_id ≠ empId))
    ∧ (s.employee.countP (fun e => e.emp_id == empId) = 0 →
        (deleteEmployee empId noFaults s).1.employee = s.employee
        ∧ (deleteEmployee empId noFaults s).2.deleted_count = some 0)
    ∧ (0 < s.employee.countP (fun e => e.emp_id == empId) →
        (deleteEmployee empId noFaults s).2.deleted_count = some 1
        ∧ ∃ l1 e l2, s.employee = l1 ++ e :: l2 ∧ e.emp_id = empId
            ∧ (∀ x ∈ l1, x.emp_id ≠ empId)
            ∧ (deleteEmployee empId noFaults s).1.employee = l1 ++ l2)
    ∧ (s.employee.countP (fun e => e.emp_id == empId) = 1 →
        (deleteEmployee empId noFaults (deleteEmployee empId noFaults s).1).2.status = 200
        ∧ (deleteEmployee empId noFaults
            (deleteEmployee empId noFaults s).1).2.deleted_count = some 0) := by
  refine ⟨rfl, ?_, ?_, ?_, ?_, ?_⟩
  · intro r
    rw [deleteEmployee_noFaults]
    simp [List.mem_filter]
  · intro r
    rw [deleteEmployee_noFaults]
    simp [List.mem_filter]
  · intro h0
    have hall : ∀ r ∈ s.employee, r.emp_id ≠ empId := by
      intro r hr
      have := (countP_zero_iff _ _).mp h0 r hr
      simpa using this
    rw [deleteEmployee_noFaults]
    rw [deleteOneEmp_not_mem s.employee empId hall]
    exact ⟨rfl, rfl⟩
  · intro hpos
    obtain ⟨hc, l1, e, l2, hsplit, hid, hl1, hres⟩ := deleteOneEmp_pos s.employee empId hpos
    rw [deleteEmployee_noFaults]
    exact ⟨by rw [hc], l1, e, l2, hsplit, hid, hl1, hres⟩
  · intro h1
    have hpos : 0 < s.employee.countP (fun e => e.emp_id == empId) := by omega
    have hcnt := deleteOneEmp_countP s.employee empId
    have hone := (deleteOneEmp_pos s.employee empId hpos).1
    have hz : (deleteOneEmp s.employee empId).1.countP (fun e => e.emp_id == empId) = 0 := by
      omega
    have hall : ∀ r ∈ (deleteOneEmp s.employee empId).1, r.emp_id ≠ empId := by
      intro r hr
      have := (countP_zero_iff _ _).mp hz r hr
      simpa using this
    rw [deleteEmployee_noFaults, deleteEmployee_noFaults]
    simp only [deleteOneEmp_not_mem _ empId hall]
    exact ⟨by trivial, by trivial⟩

/-- Witness for C7: deleting id 5 twice from a store holding it once reports
counts 1 then 0. -/
theorem C7_delete_witness :
    (deleteEmployee 5 noFaults
        { employee := [⟨5, "A"⟩], department := [⟨5, "Eng"⟩],
          developers := [⟨5, "Go"⟩] }).2.deleted_count = some 1
    ∧ (deleteEmployee 5 noFaults (deleteEmployee 5 noFaults
        { employee := [⟨5, "A"⟩], department := [⟨5, "Eng"⟩],
          developers := [⟨5, "Go"⟩] }).1).2.deleted_count = some 0 := by
  have h := C7_delete 5
    { employee := [⟨5, "A"⟩], department := [⟨5, "Eng"⟩], developers := [⟨5, "Go"⟩] }
  exact ⟨(h.2.2.2.2.1 (by decide)).1, (h.2.2.2.2.2 (by decide)).2⟩

/-! ## C8: request validation and error surfacing on /api/employees/{id} -/

theorem atoi_some_ne_empty (idStr : String) (i : Int) (h : atoi idStr = some i) :
    idStr ≠ "" := by
  intro he
  subst he
  exact Option.noConfusion h

/-- C8 counterexample: a DELETE request whose body is not parseable JSON is
not rejected — the handler never reads the body, issues the store deletes
(the store changes), and answers 200. -/
theorem C8_counterexample :
    (empByIDHandler Method.delete "5" none noFaults
        { employee := [⟨5, "A"⟩], department := [], developers := [] }).2.status = 200
    ∧ (empByIDHandler Method.delete "5" none noFaults
        { employee := [⟨5, "A"⟩], department := [], developers := [] }).1
      ≠ { employee := [⟨5, "A"⟩], department := [], developers := [] } := by
  constructor <;> decide

/-- C8 (amended): a PUT or DELETE whose path id does not parse as an integer
is rejected with 400 before any store access; a PUT whose body is not
parseable JSON is likewise rejected with 400 before any store access (a
DELETE ignores its body); and every store-layer failure surfaces as a 500
carrying the underlying error text. -/
theorem C8_request_validation (m : Method) (idStr : String) (body : Option UpdateBody)
    (f : StoreFaults) (s : Store) (i : Int) (b : UpdateBody) (e : String) :
    ((m = Method.put ∨ m = Method.delete) → atoi idStr = none →
      (empByIDHandler m idStr body f s).1 = s
      ∧ (empByIDHandler m idStr body f s).2.status = 400)
    ∧ (body = none →
      (empByIDHandler Method.put idStr body f s).1 = s
      ∧ (empByIDHandler Method.put idStr body f s).2.status = 400)
    ∧ (atoi idStr = some i → f.employee = some e →
      empByIDHandler Method.delete idStr body f s
        = (s, { status := 500, error := some ("delete employee: " ++ e) }))
    ∧ (atoi idStr = some i → f.employee = none → f.department = some e →
      (empByIDHandler Method.delete idStr body f s).2
        = { status := 500, error := some ("delete department: " ++ e) })
    ∧ (atoi idStr = some i → f.employee = none → f.department = none →
        f.developers = some e →
      (empByIDHandler Method.delete idStr body f s).2
        = { status := 500, error := some ("delete developers: " ++ e) })
    ∧ (atoi idStr = some i → body = some b → b.emp_name ≠ none → f.employee = some e →
      (empByIDHandler Method.put idStr body f s).2
        = { status := 500, error := some ("update employee: " ++ e) })
    ∧ (atoi idStr = some i → body = some b → (b.emp_name ≠ none → f.employee = none) →
        b.department ≠ none → f.department = some e →
      (empByIDHandler Method.put idStr body f s).2
        = { status := 500, error := some ("update department: " ++ e) })
    ∧ (atoi idStr = some i → body = some b → (b.emp_name ≠ none → f.employee = none) →
        (b.department ≠ none → f.department = none) → b.language ≠ none →
        f.developers = some e →
      (empByIDHandler Method.put idStr body f s).2
        = { status := 500, error := some ("update developers: " ++ e) }) := by
  refine ⟨?_, ?_, ?_, ?_, ?_, ?_, ?_, ?_⟩
  · rintro (rfl | rfl) ha <;> by_cases he : idStr = "" <;>
      simp [empByIDHandler, he, ha]
  · rintro rfl
    by_cases he : idStr = ""
    · simp [empByIDHandler, he]
    · cases ha : atoi idStr with
      | none => simp [empByIDHandler, he, ha]
      | some j => simp [empByIDHandler, he, ha, updateEmployee]
  · intro ha hfe
    have he := atoi_some_ne_empty idStr i ha
    simp [empByIDHandler, he, ha, deleteEmployee, hfe]
  · intro ha hfe hfd
    have he := atoi_some_ne_empty idStr i ha
    simp [empByIDHandler, he, ha, deleteEmployee, hfe, hfd]
  · intro ha hfe hfd hfv
    have he := atoi_some_ne_empty idStr i ha
    simp [empByIDHandler, he, ha, deleteEmployee, hfe, hfd, hfv]
  · rintro ha rfl hne hfe
    have he := atoi_some_ne_empty idStr i ha
    rcases hn : b.emp_name with _ | nm
    · exact absurd hn hne
    · simp [empByIDHandler, he, ha, updateEmployee, hn, hfe]
  · rintro ha rfl hfeimp hdne hfd
    have he := atoi_some_ne_empty idStr i ha
    rcases hd : b.department with _ | d
    · exact absurd hd hdne
    rcases hn : b.emp_name with _ | nm
    · simp [empByIDHandler, he, ha, updateEmployee, hn, updStepDept, hd, hfd]
    · have hfe : f.employee = none := hfeimp (by simp [hn])
      simp [empByIDHandler, he, ha, updateEmployee, hn, hfe, updStepDept, hd, hfd]
  · rintro ha rfl hfeimp hfdimp hlne hfv
    have he := atoi_some_ne_empty idStr i ha
    rcases hl : b.language with _ | lv
    · exact absurd hl hlne
    rcases hn : b.emp_name with _ | nm <;> rcases hd : b.department with _ | d
    · simp [empByIDHandler, he, ha, updateEmployee, hn, updStepDept, hd,
        updStepLang, hl, hfv]
    · have hfd : f.department = none := hfdimp (by simp [hd])
      simp [empByIDHandler, he, ha, updateEmployee, hn, updStepDept, hd, hfd,
        updStepLang, hl, hfv]
    · have hfe : f.employee = none := hfeimp (by simp [hn])
      simp [empByIDHandler, he, ha, updateEmployee, hn, hfe, updStepDept, hd,
        updStepLang, hl, hfv]
    · have hfe : f.employee = none := hfeimp (by simp [hn])
      have hfd : f.department = none := hfdimp (by simp [hd])
      simp [empByIDHandler, he, ha, updateEmployee, hn, hfe, updStepDept, hd, hfd,
        updStepLang, hl, hfv]

/-- Witness for C8 (amended): a PUT at a non-numeric id is a 400 leaving the
store untouched; a DELETE whose Employee delete fails is a 500 carrying the
error text. -/
theorem C8_request_validation_witness :
    (empByIDHandler Method.put "abc" none noFaults
        { employee := [], department := [], developers := [] }).2.status = 400
    ∧ empByIDHandler Method.delete "7" none { employee := some "net down" }
        { employee := [], department := [], developers := [] }
      = ({ employee := [], department := [], developers := [] },
         { status := 500, error := some ("delete employee: " ++ "net down") }) := by
  have h1 := C8_request_validation Method.put "abc" none noFaults
    { employee := [], department := [], developers := [] } 7 {} "x"
  have h2 := C8_request_validation Method.delete "7" none
    { employee := some "net down" }
    { employee := [], department := [], developers := [] } 7 {} "net down"
  exact ⟨(h1.1 (Or.inl rfl) (by decide)).2, h2.2.2.1 (by decide) rfl⟩
